import Mathlib

/-!
# Page-range parser and document handlers of the PDF utility backend

A shallow embedding of `src/index.js`.

* JavaScript strings are modelled as lists of characters (`List Char`); the
  entry points take a `String` and work on its character list.
* JavaScript numbers are modelled as exact integers (`Int`), which is what the
  double-precision numbers of the code are below `2^53`; `NaN` and `undefined`
  are modelled as `none`.
* The insertion-ordered `Set` is modelled as a duplicate-free list to which
  new members are appended.
* The PDF library is modelled on page lists: a document is its list of pages.
-/

namespace PdfUtility

/-! ## Strings -/

/-- The code points that `String.prototype.trim` and `parseInt` strip:
ECMAScript `WhiteSpace` and `LineTerminator`. -/
def isWhiteSpace (c : Char) : Bool :=
  let n := c.toNat
  n == 0x09 || n == 0x0A || n == 0x0B || n == 0x0C || n == 0x0D || n == 0x20 ||
  n == 0xA0 || n == 0x1680 || (0x2000 ≤ n && n ≤ 0x200A) || n == 0x2028 ||
  n == 0x2029 || n == 0x202F || n == 0x205F || n == 0x3000 || n == 0xFEFF

/-- Leading white space removed. -/
def trimStart (s : List Char) : List Char :=
  s.dropWhile isWhiteSpace

/-- Trailing white space removed. -/
def trimEnd (s : List Char) : List Char :=
  (s.reverse.dropWhile isWhiteSpace).reverse

/-- The method `String.prototype.trim`. -/
def trim (s : List Char) : List Char :=
  trimEnd (trimStart s)

/-- The method `String.prototype.split(sep)` for a one-character separator: the pieces
between the separators; the empty string gives one empty piece. -/
def split (sep : Char) : List Char → List (List Char)
  | [] => [[]]
  | c :: cs =>
    if c = sep then [] :: split sep cs
    else
      match split sep cs with
      | [] => [[c]]
      | p :: ps => (c :: p) :: ps

/-- The method `String.prototype.includes(c)` for a one-character argument. -/
def includes (s : List Char) (c : Char) : Bool :=
  s.contains c

/-! ## Numbers -/

/-- Value of a decimal digit character. -/
def digitValue (c : Char) : Nat :=
  c.toNat - 48

/-- Value of a string of decimal digits, most significant first. -/
def digitsValue (ds : List Char) : Nat :=
  ds.foldl (fun acc c => 10 * acc + digitValue c) 0

/-- The sign that `parseInt` reads: `-1` when the text starts with `-`, else `1`. -/
def signOf : List Char → Int
  | '-' :: _ => -1
  | _ => 1

/-- The text after the one leading `+` or `-` that `parseInt` accepts. -/
def stripSign : List Char → List Char
  | '-' :: r => r
  | '+' :: r => r
  | t => t

/-- The function `parseInt(s, 10)`: leading white space is skipped, one sign is accepted,
then the longest run of decimal digits is read; what follows is ignored.
No digit gives `NaN` (`none`). -/
def parseInt (s : List Char) : Option Int :=
  let t := trimStart s
  let z := (stripSign t).takeWhile Char.isDigit
  match z with
  | [] => none
  | _ :: _ => some (signOf t * (digitsValue z : Int))

/-! ## The index set -/

/-- The method `Set.prototype.add` on the insertion-ordered member list. -/
def setAdd (indices : List Int) (x : Int) : List Int :=
  if x ∈ indices then indices else indices ++ [x]

/-- The values `start, start+1, ..., end` that the loop variable `i` of
`for (let i = start; i <= end; i++)` takes. -/
def loopValues (start stop : Int) : List Int :=
  (List.range (stop + 1 - start).toNat).map (fun (j : Nat) => start + (j : Int))

/-- The span loop: `if (i > 0 && i <= maxPage) indices.add(i - 1)` for each `i`. -/
def spanLoop (maxPage : Int) (indices : List Int) (start stop : Int) : List Int :=
  (loopValues start stop).foldl
    (fun acc i => if 0 < i ∧ i ≤ maxPage then setAdd acc (i - 1) else acc) indices

/-- One iteration of `for (const part of parts)` in `parsePageRanges`. -/
def processPart (maxPage : Int) (indices : List Int) (part : List Char) : List Int :=
  if includes part '-' then
    match (split '-' part).map (fun num => parseInt (trim num)) with
    | some start :: some stop :: _ => spanLoop maxPage indices start stop
    | _ => indices
  else
    match parseInt (trim part) with
    | some pageNum =>
      if 0 < pageNum ∧ pageNum ≤ maxPage then setAdd indices (pageNum - 1) else indices
    | none => indices

/-- The function `parsePageRanges(ranges, maxPage)` on the character list of `ranges`:
the parts are processed in order and the members are sorted ascending. -/
def parsePageRangesChars (ranges : List Char) (maxPage : Int) : List Int :=
  ((split ',' ranges).foldl (processPart maxPage) []).insertionSort (· ≤ ·)

/-- The function `parsePageRanges(ranges, maxPage)`. -/
def parsePageRanges (ranges : String) (maxPage : Int) : List Int :=
  parsePageRangesChars ranges.toList maxPage

/-! ## Well-formed expressions -/

/-- The method `Array.prototype.join(sep)` for a one-character separator. -/
def joinWith (sep : Char) : List (List Char) → List Char
  | [] => []
  | [p] => p
  | p :: q :: ps => p ++ sep :: joinWith sep (q :: ps)

/-- A decimal numeral: a non-empty string of the digits `0` to `9`. -/
def IsNumeral (ds : List Char) : Prop :=
  ds ≠ [] ∧ ∀ c ∈ ds, c.isDigit = true

instance (ds : List Char) : Decidable (IsNumeral ds) := by
  unfold IsNumeral
  infer_instance

/-- A string of white space only. -/
def IsBlank (ws : List Char) : Prop :=
  ∀ c ∈ ws, isWhiteSpace c = true

instance (ws : List Char) : Decidable (IsBlank ws) := by
  unfold IsBlank
  infer_instance

/-- A token of the grammar: a single page number `N` or a span `A-B`, each
number given by its text. -/
inductive Token where
  | single (n : List Char)
  | span (a b : List Char)
  deriving DecidableEq, Repr

/-- The numbers of a token are decimal numerals. -/
def Token.WellFormed : Token → Prop
  | .single n => IsNumeral n
  | .span a b => IsNumeral a ∧ IsNumeral b

instance (t : Token) : Decidable t.WellFormed := by
  cases t <;> unfold Token.WellFormed <;> infer_instance

/-- The text of a token. -/
def Token.render : Token → List Char
  | .single n => n
  | .span a b => a ++ '-' :: b

/-- The zero-based index `k` is selected by the token: `N = k+1`, or
`A ≤ k+1 ≤ B`. -/
def Token.selects : Token → Int → Bool
  | .single n, k => decide ((digitsValue n : Int) = k + 1)
  | .span a b, k => decide ((digitsValue a : Int) ≤ k + 1 ∧ k + 1 ≤ (digitsValue b : Int))

/-- A token that can select nothing: a single number outside `[1, maxPage]`, or a
span `A-B` with `A > B`. -/
def Token.Vacuous (maxPage : Int) : Token → Prop
  | .single n => (digitsValue n : Int) < 1 ∨ maxPage < (digitsValue n : Int)
  | .span a b => digitsValue b < digitsValue a

instance (maxPage : Int) (t : Token) : Decidable (t.Vacuous maxPage) := by
  cases t <;> unfold Token.Vacuous <;> infer_instance

/-- The text of an expression: its tokens joined by commas. -/
def renderExpr (toks : List Token) : List Char :=
  joinWith ',' (toks.map Token.render)

/-- White space placed around a token and around the `-` of a span. -/
structure Padding where
  before : List Char
  beforeDash : List Char
  afterDash : List Char
  after : List Char
  deriving DecidableEq, Repr

/-- Every part of the padding is white space. -/
def Padding.Blank (p : Padding) : Prop :=
  IsBlank p.before ∧ IsBlank p.beforeDash ∧ IsBlank p.afterDash ∧ IsBlank p.after

instance (p : Padding) : Decidable p.Blank := by
  unfold Padding.Blank
  infer_instance

/-- The text of a token with white space inserted around it and around its `-`. -/
def Token.renderPadded (p : Padding) : Token → List Char
  | .single n => p.before ++ n ++ p.after
  | .span a b => (p.before ++ a ++ p.beforeDash) ++ '-' :: (p.afterDash ++ b ++ p.after)

/-- The text of an expression with white space inserted. -/
def renderPaddedExpr (toks : List (Padding × Token)) : List Char :=
  joinWith ',' (toks.map (fun pt => pt.2.renderPadded pt.1))

/-- The indices `0, 1, ..., maxPage - 1`, ascending. -/
def pageIndexList (maxPage : Int) : List Int :=
  (List.range maxPage.toNat).map (fun (k : Nat) => (k : Int))

/-- The trimmed text reads as no number: `parseInt` yields `NaN`. -/
def readsNoNumber (s : List Char) : Bool :=
  (parseInt (trim s)).isNone

/-- A part that `parsePageRanges` drops because a number it needs is `NaN`:
without `-`, the part itself reads as no number; with `-`, the first or the
second of its `-`-separated pieces reads as no number. -/
def Dropped (part : List Char) : Bool :=
  if includes part '-' then
    match split '-' part with
    | x :: y :: _ => readsNoNumber x || readsNoNumber y
    | _ => true
  else readsNoNumber part

/-- The loop body of the span loop, as a step on the member list. -/
def spanStep (maxPage : Int) (acc : List Int) (i : Int) : List Int :=
  if 0 < i ∧ i ≤ maxPage then setAdd acc (i - 1) else acc

/-- What one part of the expression selects: the members it adds to an empty set. -/
def partIndices (maxPage : Int) (part : List Char) : List Int :=
  processPart maxPage [] part

/-! ## Handlers

A document is modelled by its list of pages. -/

/-- An HTTP response of a handler: a status with a plain-text message, or the
download of the saved document under a file name. -/
inductive Response (Page : Type) where
  | status (code : Nat) (message : String)
  | download (fileName : String) (pages : List Page)
  deriving DecidableEq, Repr

/-- An uploaded file (`req.file`). `load` is the outcome of
`PDFDocument.load(req.file.buffer)`: the pages of the document, or `none` when
the library throws. -/
structure UploadedFile (Page : Type) where
  load : Option (List Page)
  deriving DecidableEq, Repr

/-- Modelled from the spec: the PDF library is outside the repository.
`doc.copyPages(src, indices)` gives the pages of `src` at `indices`, in the order of
`indices`; an index that is not a page of `src` makes the call throw (`none`). -/
def copyPages {Page : Type} (src : List Page) : List Int → Option (List Page)
  | [] => some []
  | i :: rest =>
    match (if 0 ≤ i then src[i.toNat]? else none), copyPages src rest with
    | some page, some pages => some (page :: pages)
    | _, _ => none

/-- Modelled from the spec: `pages.forEach(page => doc.addPage(page))` appends each
page, in order, to the document. -/
def addPages {Page : Type} (doc pages : List Page) : List Page :=
  pages.foldl (fun d page => d ++ [page]) doc

/-- A request to `/api/split`: the uploaded file, the `ranges` form field, and
the value of `Date.now()`. -/
structure SplitRequest (Page : Type) where
  file : Option (UploadedFile Page)
  ranges : Option String
  now : Nat

/-- The handler of `POST /api/split`. Saving and writing the result are taken to
succeed. -/
def splitHandler {Page : Type} (req : SplitRequest Page) : Response Page :=
  match req.file with
  | none => .status 400 "No file uploaded."
  | some file =>
    match req.ranges with
    | none => .status 400 "No page ranges provided."
    | some ranges =>
      if ranges = "" then .status 400 "No page ranges provided."
      else
        match file.load with
        | none => .status 500 "An error occurred while splitting the PDF."
        | some originalPdf =>
          let pageIndices := parsePageRanges ranges originalPdf.length
          if pageIndices.length = 0 then .status 400 "Invalid page ranges provided."
          else
            match copyPages originalPdf pageIndices with
            | none => .status 500 "An error occurred while splitting the PDF."
            | some copiedPages =>
              .download ("split-" ++ toString req.now ++ ".pdf") (addPages [] copiedPages)

/-- The remainder operator `%` of JavaScript on integers: the result has the sign
of the dividend. -/
def jsRem (a b : Int) : Int :=
  Int.tmod a b

/-- The rotations that the loop of `/api/rotate` sets, one for each page, from the
`angle` field and the current rotations of the pages:
`(currentRotation + rotationAngle) % 360` with `rotationAngle = parseInt(angle, 10)`;
`none` is `NaN`. -/
def rotatedAngles (angle : List Char) (currentRotations : List Int) : List (Option Int) :=
  let rotationAngle := parseInt angle
  currentRotations.map (fun currentRotation =>
    rotationAngle.map (fun delta => jsRem (currentRotation + delta) 360))

/-! ## The other document handlers -/

/-- A request to `/api/merge`: `req.files` (absent, or the uploaded files in upload
order) and the value of `Date.now()`. -/
structure MergeRequest (Page : Type) where
  files : Option (List (UploadedFile Page))
  now : Nat

/-- The loop of the merge handler over `req.files`: each file is loaded, all its
pages (`pdf.getPageIndices()`) are copied and added to the merged document.
The result is `none` when a library call throws. -/
def mergeLoop {Page : Type} (mergedPdf : List Page) :
    List (UploadedFile Page) → Option (List Page)
  | [] => some mergedPdf
  | file :: rest =>
    match file.load with
    | none => none
    | some pdf =>
      match copyPages pdf (pageIndexList pdf.length) with
      | none => none
      | some copiedPages => mergeLoop (addPages mergedPdf copiedPages) rest

/-- The handler of `POST /api/merge`. Saving and writing the result are taken to
succeed. -/
def mergeHandler {Page : Type} (req : MergeRequest Page) : Response Page :=
  match req.files with
  | none => .status 400 "No files uploaded."
  | some files =>
    if files.length = 0 then .status 400 "No files uploaded."
    else
      match mergeLoop [] files with
      | none => .status 500 "An error occurred while merging the PDFs."
      | some mergedPdf => .download ("merged-" ++ toString req.now ++ ".pdf") mergedPdf

/-- A request to `/api/rotate`: the uploaded file, the `angle` form field, and the
value of `Date.now()`. -/
structure RotateRequest (Page : Type) where
  file : Option (UploadedFile Page)
  angle : Option String
  now : Nat

/-- The loop of the rotate handler. The library calls are parameters:
`getRotation page` is `page.getRotation().angle`, and `setRotation page r` is the
page after `page.setRotation(degrees(r))`, or `none` when the library throws
(`r = none` is `NaN`). -/
def rotateLoop {Page : Type} (getRotation : Page → Int)
    (setRotation : Page → Option Int → Option Page) (rotationAngle : Option Int) :
    List Page → Option (List Page)
  | [] => some []
  | page :: rest =>
    let newRotation := rotationAngle.map (fun delta => jsRem (getRotation page + delta) 360)
    match setRotation page newRotation with
    | none => none
    | some rotated =>
      match rotateLoop getRotation setRotation rotationAngle rest with
      | none => none
      | some others => some (rotated :: others)

/-- The handler of `POST /api/rotate`. Saving and writing the result are taken to
succeed. -/
def rotateHandler {Page : Type} (getRotation : Page → Int)
    (setRotation : Page → Option Int → Option Page) (req : RotateRequest Page) :
    Response Page :=
  match req.file with
  | none => .status 400 "No file uploaded."
  | some file =>
    match req.angle with
    | none => .status 400 "No rotation angle provided."
    | some angle =>
      if angle = "" then .status 400 "No rotation angle provided."
      else
        match file.load with
        | none => .status 500 "An error occurred while rotating the PDF."
        | some pages =>
          match rotateLoop getRotation setRotation (parseInt angle.toList) pages with
          | none => .status 500 "An error occurred while rotating the PDF."
          | some rotated => .download ("rotated-" ++ toString req.now ++ ".pdf") rotated

/-- A request to `/api/protect`: the uploaded file, the `password` form field, and
the value of `Date.now()`. -/
structure ProtectRequest (Page : Type) where
  file : Option (UploadedFile Page)
  password : Option String
  now : Nat

/-- The handler of `POST /api/protect`. The library calls after the copy are
parameters: `decorate password pages` is the new document after the metadata, font
and `drawText` calls (`none` when one throws), and `encryptionThrows` tells whether
the save with a password throws, in which case the document is saved without one.
Writing the result is taken to succeed. -/
def protectHandler {Page : Type} (decorate : String → List Page → Option (List Page))
    (encryptionThrows : Bool) (req : ProtectRequest Page) : Response Page :=
  match req.file with
  | none => .status 400 "No file uploaded."
  | some file =>
    match req.password with
    | none => .status 400 "No password provided."
    | some password =>
      if password = "" then .status 400 "No password provided."
      else
        match file.load with
        | none => .status 500 "An error occurred while protecting the PDF."
        | some pdfDoc =>
          match copyPages pdfDoc (pageIndexList pdfDoc.length) with
          | none => .status 500 "An error occurred while protecting the PDF."
          | some copiedPages =>
            match decorate password (addPages [] copiedPages) with
            | none => .status 500 "An error occurred while protecting the PDF."
            | some newPdf =>
              if encryptionThrows then
                .download ("protected-" ++ toString req.now ++ ".pdf") newPdf
              else
                .download ("protected-" ++ toString req.now ++ ".pdf") newPdf

/-- Why a call of `PDFDocument.load` throws: the password is wrong or missing for
an encrypted document, or the input is not a readable document. -/
inductive LoadFailure where
  | password
  | corrupt
  deriving DecidableEq, Repr

/-- An uploaded file of `/api/unlock`. `load (some password)` is the outcome of
`PDFDocument.load(req.file.buffer, { password })` and `load none` that of
`PDFDocument.load(req.file.buffer)`: the pages, or the reason of the throw. -/
structure LockedFile (Page : Type) where
  load : Option String → Except LoadFailure (List Page)

/-- A request to `/api/unlock`: the uploaded file, the `password` form field, and
the value of `Date.now()`. -/
structure UnlockRequest (Page : Type) where
  file : Option (LockedFile Page)
  password : Option String
  now : Nat

/-- The handler of `POST /api/unlock`. Saving and writing the result are taken to
succeed. -/
def unlockHandler {Page : Type} (req : UnlockRequest Page) : Response Page :=
  match req.file with
  | none => .status 400 "No file uploaded."
  | some file =>
    let loaded :=
      match req.password with
      | none => file.load none
      | some password => if password = "" then file.load none else file.load (some password)
    match loaded with
    | .error _ =>
      .status 401 "Failed to unlock PDF. Incorrect password or file is not encrypted."
    | .ok pdfDoc => .download ("unlocked-" ++ toString req.now ++ ".pdf") pdfDoc

/-- A request to `/api/watermark`: the uploaded file, the `text` form field, and
the value of `Date.now()`. -/
structure WatermarkRequest (Page : Type) where
  file : Option (UploadedFile Page)
  text : Option String
  now : Nat

/-- The handler of `POST /api/watermark`. The library calls after the load are a
parameter: `stamp text pages` is the document after the font is embedded and the
text is drawn on every page, `none` when a call throws. Saving and writing the
result are taken to succeed. -/
def watermarkHandler {Page : Type} (stamp : String → List Page → Option (List Page))
    (req : WatermarkRequest Page) : Response Page :=
  match req.file with
  | none => .status 400 "No file uploaded."
  | some file =>
    match req.text with
    | none => .status 400 "No watermark text provided."
    | some text =>
      if text = "" then .status 400 "No watermark text provided."
      else
        match file.load with
        | none => .status 500 "An error occurred while adding the watermark."
        | some pages =>
          match stamp text pages with
          | none => .status 500 "An error occurred while adding the watermark."
          | some stamped => .download ("watermarked-" ++ toString req.now ++ ".pdf") stamped

/-- A request to `/api/compress`: the uploaded file and the value of `Date.now()`. -/
structure CompressRequest (Page : Type) where
  file : Option (UploadedFile Page)
  now : Nat

/-- The handler of `POST /api/compress`. Saving and writing the result are taken
to succeed. -/
def compressHandler {Page : Type} (req : CompressRequest Page) : Response Page :=
  match req.file with
  | none => .status 400 "No file uploaded."
  | some file =>
    match file.load with
    | none => .status 500 "An error occurred while compressing the PDF."
    | some originalPdf =>
      match copyPages originalPdf (pageIndexList originalPdf.length) with
      | none => .status 500 "An error occurred while compressing the PDF."
      | some copiedPages =>
        .download ("compressed-" ++ toString req.now ++ ".pdf") (addPages [] copiedPages)

/-! ## The conversion handler -/

/-- The method `String.prototype.replace(pattern, replacement)` on character
lists, for a string pattern and a replacement without `$`: the first occurrence
of the pattern is replaced. -/
def replaceFirst (pattern replacement : List Char) : List Char → List Char
  | [] => if pattern = [] then replacement else []
  | c :: cs =>
    if (c :: cs).take pattern.length = pattern then
      replacement ++ (c :: cs).drop pattern.length
    else c :: replaceFirst pattern replacement cs

/-- The method `String.prototype.replace(pattern, replacement)`. -/
def jsReplace (s pattern replacement : String) : String :=
  String.mk (replaceFirst pattern.toList replacement.toList s.toList)

/-- What the conversion handler does with the response: a status with a message, a
download of the written content under a file name, or nothing at all (the handler
returns without sending a response). -/
inductive ConvertResponse (Content : Type) where
  | status (code : Nat) (message : String)
  | download (fileName : String) (content : Content)
  | noResponse
  deriving DecidableEq, Repr

/-- An uploaded file of `/api/convert-office`. `extension` is the value of
`path.extname(req.file.originalname).toLowerCase()`, and `converted` is the outcome
of the library calls of the branch that is taken: the content that is written, or
`none` when a call throws. -/
structure OfficeFile (Content : Type) where
  extension : String
  converted : Option Content

/-- A request to `/api/convert-office`: the uploaded file, the `outputFormat` form
field, and the value of `Date.now()`. -/
structure ConvertRequest (Content : Type) where
  file : Option (OfficeFile Content)
  outputFormat : Option String
  now : Nat

/-- The message of the last `else` branch of the conversion handler. -/
def unsupportedMessage (inputFileExtension outputFormat : String) : String :=
  "Unsupported conversion: " ++ inputFileExtension ++ " to " ++ outputFormat ++
    ". Supported conversions: DOCX↔PDF, XLSX→PDF, PDF→XLSX, PPTX→PDF, PDF→PPTX"

/-- The handler of `POST /api/convert-office`, branch by branch in the order of the
source. The branch for `.pptx`/`.ppt` to `pdf` has an empty body; the second branch
for `.pdf` to `pptx` comes after the first one and ends in a reference to a
variable that is not in scope, which throws. -/
def convertOfficeHandler {Content : Type} (req : ConvertRequest Content) :
    ConvertResponse Content :=
  match req.file with
  | none => .status 400 "No file uploaded."
  | some file =>
    match req.outputFormat with
    | none => .status 400 "No output format specified."
    | some outputFormat =>
      if outputFormat = "" then .status 400 "No output format specified."
      else
        let inputFileExtension := file.extension
        if inputFileExtension = ".docx" ∧ outputFormat = "pdf" then
          match file.converted with
          | none => .status 500 "An error occurred during office conversion."
          | some pdfBuffer => .download ("converted-" ++ toString req.now ++ ".pdf") pdfBuffer
        else if (inputFileExtension = ".xlsx" ∨ inputFileExtension = ".xls") ∧
            outputFormat = "pdf" then
          match file.converted with
          | none => .status 500 "An error occurred during office conversion."
          | some pdfBuffer => .download ("converted-" ++ toString req.now ++ ".pdf") pdfBuffer
        else if inputFileExtension = ".pdf" ∧ outputFormat = "docx" then
          match file.converted with
          | none => .status 500 "An error occurred during office conversion."
          | some wordPdfBuffer =>
            .download (jsReplace ("converted-" ++ toString req.now ++ ".pdf") ".pdf" ".docx")
              wordPdfBuffer
        else if inputFileExtension = ".pdf" ∧ outputFormat = "xlsx" then
          match file.converted with
          | none => .status 500 "An error occurred during office conversion."
          | some excelBuffer =>
            .download ("converted-" ++ toString req.now ++ ".xlsx") excelBuffer
        else if inputFileExtension = ".pdf" ∧ outputFormat = "pptx" then
          match file.converted with
          | none => .status 500 "An error occurred during office conversion."
          | some pptPdfBuffer =>
            .download (jsReplace ("converted-" ++ toString req.now ++ ".pdf") ".pdf" ".pptx")
              pptPdfBuffer
        else if (inputFileExtension = ".pptx" ∨ inputFileExtension = ".ppt") ∧
            outputFormat = "pdf" then
          .noResponse
        else if inputFileExtension = ".pdf" ∧ outputFormat = "pptx" then
          .status 500 "An error occurred during office conversion."
        else
          .status 400 (unsupportedMessage inputFileExtension outputFormat)

/-- The pairs of lower-cased input extension and output format that the conversion
handler does not answer with the message for an unsupported conversion. -/
def acceptedPairs : List (String × String) :=
  [(".docx", "pdf"), (".xlsx", "pdf"), (".xls", "pdf"), (".pdf", "docx"),
    (".pdf", "xlsx"), (".pdf", "pptx"), (".pptx", "pdf"), (".ppt", "pdf")]

/-- The pairs that the message for an unsupported conversion enumerates: DOCX to
PDF, PDF to DOCX, XLSX to PDF, PDF to XLSX, PPTX to PDF, PDF to PPTX. -/
def enumeratedPairs : List (String × String) :=
  [(".docx", "pdf"), (".pdf", "docx"), (".xlsx", "pdf"), (".pdf", "xlsx"),
    (".pptx", "pdf"), (".pdf", "pptx")]

/-! ## The index set: membership and distinctness -/

theorem mem_setAdd (s : List Int) (x k : Int) : k ∈ setAdd s x ↔ k ∈ s ∨ k = x := by
  unfold setAdd
  split
  · constructor
    · intro h; exact Or.inl h
    · rintro (h | rfl)
      · exact h
      · assumption
  · simp

theorem nodup_setAdd (s : List Int) (x : Int) (h : s.Nodup) : (setAdd s x).Nodup := by
  unfold setAdd
  split
  · exact h
  · rename_i hx
    rw [List.nodup_append]
    refine ⟨h, List.nodup_singleton x, ?_⟩
    intro a ha hb
    simp only [List.mem_singleton] at hb
    subst hb
    exact hx ha

theorem mem_loopValues (a b i : Int) : i ∈ loopValues a b ↔ a ≤ i ∧ i ≤ b := by
  unfold loopValues
  rw [List.mem_map]
  constructor
  · rintro ⟨j, hj, rfl⟩
    rw [List.mem_range] at hj
    omega
  · rintro ⟨h1, h2⟩
    refine ⟨(i - a).toNat, List.mem_range.mpr ?_, ?_⟩ <;> omega

theorem spanLoop_eq (maxPage : Int) (s : List Int) (a b : Int) :
    spanLoop maxPage s a b = (loopValues a b).foldl (spanStep maxPage) s := rfl

theorem mem_foldl_spanStep (maxPage : Int) (l : List Int) (s : List Int) (k : Int) :
    k ∈ l.foldl (spanStep maxPage) s ↔
      k ∈ s ∨ ∃ i ∈ l, 0 < i ∧ i ≤ maxPage ∧ k = i - 1 := by
  induction l generalizing s with
  | nil => simp
  | cons x xs ih =>
    rw [List.foldl_cons, ih]
    unfold spanStep
    split
    · rename_i hx
      rw [mem_setAdd]
      constructor
      · rintro ((h | h) | ⟨i, hi, h⟩)
        · exact Or.inl h
        · exact Or.inr ⟨x, List.mem_cons_self _ _, hx.1, hx.2, h⟩
        · exact Or.inr ⟨i, List.mem_cons_of_mem _ hi, h⟩
      · rintro (h | ⟨i, hi, h⟩)
        · exact Or.inl (Or.inl h)
        · rcases List.mem_cons.mp hi with rfl | hi
          · exact Or.inl (Or.inr h.2.2)
          · exact Or.inr ⟨i, hi, h⟩
    · rename_i hx
      constructor
      · rintro (h | ⟨i, hi, h⟩)
        · exact Or.inl h
        · exact Or.inr ⟨i, List.mem_cons_of_mem _ hi, h⟩
      · rintro (h | ⟨i, hi, h⟩)
        · exact Or.inl h
        · rcases List.mem_cons.mp hi with rfl | hi
          · exact absurd ⟨h.1, h.2.1⟩ hx
          · exact Or.inr ⟨i, hi, h⟩

theorem nodup_foldl_spanStep (maxPage : Int) (l : List Int) (s : List Int) (h : s.Nodup) :
    (l.foldl (spanStep maxPage) s).Nodup := by
  induction l generalizing s with
  | nil => simpa using h
  | cons x xs ih =>
    rw [List.foldl_cons]
    apply ih
    unfold spanStep
    split
    · exact nodup_setAdd _ _ h
    · exact h

theorem mem_spanLoop (maxPage : Int) (s : List Int) (a b k : Int) :
    k ∈ spanLoop maxPage s a b ↔
      k ∈ s ∨ (a ≤ k + 1 ∧ k + 1 ≤ b ∧ 0 ≤ k ∧ k < maxPage) := by
  rw [spanLoop_eq, mem_foldl_spanStep]
  constructor
  · rintro (h | ⟨i, hi, h1, h2, rfl⟩)
    · exact Or.inl h
    · rw [mem_loopValues] at hi
      right; omega
  · rintro (h | ⟨h1, h2, h3, h4⟩)
    · exact Or.inl h
    · refine Or.inr ⟨k + 1, (mem_loopValues _ _ _).mpr ⟨h1, h2⟩, ?_, ?_, ?_⟩ <;> omega

theorem nodup_spanLoop (maxPage : Int) (s : List Int) (a b : Int) (h : s.Nodup) :
    (spanLoop maxPage s a b).Nodup := by
  rw [spanLoop_eq]
  exact nodup_foldl_spanStep _ _ _ h

theorem mem_processPart (maxPage : Int) (s : List Int) (part : List Char) (k : Int) :
    k ∈ processPart maxPage s part ↔ k ∈ s ∨ k ∈ partIndices maxPage part := by
  unfold partIndices processPart
  split
  · split
    · simp only [mem_spanLoop, List.not_mem_nil, false_or]
    · simp
  · split
    · split
      · simp only [mem_setAdd, List.not_mem_nil, false_or]
      · simp
    · simp

theorem nodup_processPart (maxPage : Int) (s : List Int) (part : List Char) (h : s.Nodup) :
    (processPart maxPage s part).Nodup := by
  unfold processPart
  split
  · split
    · exact nodup_spanLoop _ _ _ _ h
    · exact h
  · split
    · split
      · exact nodup_setAdd _ _ h
      · exact h
    · exact h

theorem mem_partIndices_bounds (maxPage : Int) (part : List Char) (k : Int)
    (h : k ∈ partIndices maxPage part) : 0 ≤ k ∧ k ≤ maxPage - 1 := by
  unfold partIndices processPart at h
  split at h
  · split at h
    · rw [mem_spanLoop] at h
      simp only [List.not_mem_nil, false_or] at h
      omega
    · simp at h
  · split at h
    · split at h
      · rw [mem_setAdd] at h
        simp only [List.not_mem_nil, false_or] at h
        omega
      · simp at h
    · simp at h

theorem mem_foldl_processPart (maxPage : Int) (parts : List (List Char)) (s : List Int)
    (k : Int) :
    k ∈ parts.foldl (processPart maxPage) s ↔
      k ∈ s ∨ ∃ p ∈ parts, k ∈ partIndices maxPage p := by
  induction parts generalizing s with
  | nil => simp
  | cons x xs ih =>
    rw [List.foldl_cons, ih, mem_processPart]
    simp only [List.mem_cons, exists_eq_or_imp]
    tauto

theorem nodup_foldl_processPart (maxPage : Int) (parts : List (List Char)) (s : List Int)
    (h : s.Nodup) : (parts.foldl (processPart maxPage) s).Nodup := by
  induction parts generalizing s with
  | nil => simpa using h
  | cons x xs ih =>
    rw [List.foldl_cons]
    exact ih _ (nodup_processPart _ _ _ h)

/-! ## The parser: sortedness and membership -/

theorem mem_parsePageRangesChars (ranges : List Char) (maxPage : Int) (k : Int) :
    k ∈ parsePageRangesChars ranges maxPage ↔
      ∃ p ∈ split ',' ranges, k ∈ partIndices maxPage p := by
  unfold parsePageRangesChars
  rw [List.mem_insertionSort, mem_foldl_processPart]
  simp

theorem sorted_parsePageRangesChars (ranges : List Char) (maxPage : Int) :
    (parsePageRangesChars ranges maxPage).Sorted (· < ·) := by
  unfold parsePageRangesChars
  have hs := List.sorted_insertionSort (· ≤ · : Int → Int → Prop)
    ((split ',' ranges).foldl (processPart maxPage) [])
  have hn : (((split ',' ranges).foldl (processPart maxPage) []).insertionSort
      (· ≤ ·)).Nodup :=
    (List.perm_insertionSort _ _).nodup_iff.mpr
      (nodup_foldl_processPart _ _ _ List.nodup_nil)
  exact hs.lt_of_le hn

/-- Two strictly increasing lists with the same members are equal. -/
theorem eq_of_sorted_of_mem_iff (l₁ l₂ : List Int) (h₁ : l₁.Sorted (· < ·))
    (h₂ : l₂.Sorted (· < ·)) (h : ∀ k, k ∈ l₁ ↔ k ∈ l₂) : l₁ = l₂ := by
  apply List.eq_of_perm_of_sorted ((List.perm_ext_iff_of_nodup h₁.nodup h₂.nodup).mpr h)
    h₁.le_of_lt h₂.le_of_lt

/-! ## Splitting and joining -/

theorem split_ne_nil (sep : Char) (s : List Char) : split sep s ≠ [] := by
  cases s with
  | nil => simp [split]
  | cons c cs =>
    unfold split
    split
    · simp
    · split <;> simp

theorem split_of_not_mem (sep : Char) (s : List Char) (h : sep ∉ s) : split sep s = [s] := by
  induction s with
  | nil => rfl
  | cons c cs ih =>
    have hc : c ≠ sep := fun e => h (e ▸ List.mem_cons_self _ _)
    have hcs : sep ∉ cs := fun e => h (List.mem_cons_of_mem _ e)
    unfold split
    rw [if_neg hc, ih hcs]

theorem split_append_sep (sep : Char) (a b : List Char) :
    split sep (a ++ sep :: b) = split sep a ++ split sep b := by
  induction a with
  | nil => simp [split]
  | cons c cs ih =>
    by_cases hc : c = sep
    · simp only [List.cons_append, split, if_pos hc, List.append_eq, ih]
    · simp only [List.cons_append, split, if_neg hc, List.append_eq, ih]
      cases hs : split sep cs with
      | nil => exact absurd hs (split_ne_nil _ _)
      | cons p ps => simp

theorem split_joinWith (sep : Char) (parts : List (List Char)) (hne : parts ≠ [])
    (h : ∀ p ∈ parts, sep ∉ p) : split sep (joinWith sep parts) = parts := by
  induction parts with
  | nil => exact absurd rfl hne
  | cons p ps ih =>
    cases ps with
    | nil => exact split_of_not_mem _ _ (h p (List.mem_cons_self _ _))
    | cons q qs =>
      unfold joinWith
      rw [split_append_sep, split_of_not_mem _ _ (h p (List.mem_cons_self _ _)),
        ih (by simp) (fun r hr => h r (List.mem_cons_of_mem _ hr))]
      rfl

theorem split_joinWith_nil (sep : Char) : split sep (joinWith sep []) = [[]] := rfl

theorem joinWith_append (sep : Char) (xs ys : List (List Char)) (hx : xs ≠ [])
    (hy : ys ≠ []) : joinWith sep (xs ++ ys) = joinWith sep xs ++ sep :: joinWith sep ys := by
  induction xs with
  | nil => exact absurd rfl hx
  | cons p ps ih =>
    cases ps with
    | nil =>
      cases ys with
      | nil => exact absurd rfl hy
      | cons y ys => rfl
    | cons q qs =>
      have := ih (by simp)
      simp only [List.cons_append, joinWith, List.append_eq] at this ⊢
      rw [this]
      simp

/-! ## Characters -/

theorem isDigit_iff (c : Char) : c.isDigit = true ↔ 48 ≤ c.toNat ∧ c.toNat ≤ 57 := by
  unfold Char.isDigit Char.toNat
  simp only [Bool.and_eq_true, decide_eq_true_eq, ge_iff_le, UInt32.le_def, Fin.le_def]
  rfl

theorem isWhiteSpace_toNat (c : Char) (h : isWhiteSpace c = true) :
    c.toNat = 9 ∨ c.toNat = 10 ∨ c.toNat = 11 ∨ c.toNat = 12 ∨ c.toNat = 13 ∨
    c.toNat = 32 ∨ 160 ≤ c.toNat := by
  unfold isWhiteSpace at h
  simp only [Bool.or_eq_true, Bool.and_eq_true, beq_iff_eq, decide_eq_true_eq] at h
  omega

theorem not_isWhiteSpace_of_isDigit (c : Char) (h : c.isDigit = true) :
    isWhiteSpace c = false := by
  rw [isDigit_iff] at h
  cases hw : isWhiteSpace c with
  | false => rfl
  | true =>
    have := isWhiteSpace_toNat c hw
    omega

theorem ne_of_toNat_ne (c d : Char) (h : c.toNat ≠ d.toNat) : c ≠ d :=
  fun e => h (e ▸ rfl)

theorem isDigit_ne_sep (c : Char) (h : c.isDigit = true) : c ≠ ',' ∧ c ≠ '-' ∧ c ≠ '+' := by
  rw [isDigit_iff] at h
  refine ⟨ne_of_toNat_ne _ _ ?_, ne_of_toNat_ne _ _ ?_, ne_of_toNat_ne _ _ ?_⟩ <;>
    (simp only [show (',' : Char).toNat = 44 from rfl, show ('-' : Char).toNat = 45 from rfl,
      show ('+' : Char).toNat = 43 from rfl]; omega)

theorem isWhiteSpace_ne_sep (c : Char) (h : isWhiteSpace c = true) : c ≠ ',' ∧ c ≠ '-' := by
  have := isWhiteSpace_toNat c h
  refine ⟨ne_of_toNat_ne _ _ ?_, ne_of_toNat_ne _ _ ?_⟩ <;>
    (simp only [show (',' : Char).toNat = 44 from rfl, show ('-' : Char).toNat = 45 from rfl];
     omega)

/-! ## Numerals, trimming and `parseInt` -/

theorem trimStart_blank_append (ws s : List Char) (h : IsBlank ws) :
    trimStart (ws ++ s) = trimStart s := by
  induction ws with
  | nil => rfl
  | cons c cs ih =>
    have hc := h c (List.mem_cons_self _ _)
    have := ih (fun d hd => h d (List.mem_cons_of_mem _ hd))
    unfold trimStart at this ⊢
    rw [List.cons_append, List.dropWhile_cons, if_pos hc, this]

theorem trimStart_cons_of_not (c : Char) (cs : List Char) (h : isWhiteSpace c = false) :
    trimStart (c :: cs) = c :: cs := by
  unfold trimStart
  rw [List.dropWhile_cons, if_neg (by simp [h])]

theorem trimEnd_append_blank (s ws : List Char) (h : IsBlank ws) :
    trimEnd (s ++ ws) = trimEnd s := by
  have hr : IsBlank ws.reverse := fun c hc => h c (List.mem_reverse.mp hc)
  have := trimStart_blank_append ws.reverse s.reverse hr
  unfold trimStart at this
  unfold trimEnd
  rw [List.reverse_append, this]

theorem trimStart_numeral_append (ds s : List Char) (h : IsNumeral ds) :
    trimStart (ds ++ s) = ds ++ s := by
  obtain ⟨hne, hd⟩ := h
  cases ds with
  | nil => exact absurd rfl hne
  | cons c cs =>
    exact trimStart_cons_of_not c _ (not_isWhiteSpace_of_isDigit c (hd c (List.mem_cons_self _ _)))

theorem trimEnd_numeral (ds : List Char) (h : IsNumeral ds) : trimEnd ds = ds := by
  have hr : IsNumeral ds.reverse :=
    ⟨by simpa using h.1, fun c hc => h.2 c (List.mem_reverse.mp hc)⟩
  have := trimStart_numeral_append ds.reverse [] hr
  unfold trimStart at this
  unfold trimEnd
  rw [List.append_nil] at this
  rw [this, List.reverse_reverse]

theorem trim_padded_numeral (l ds r : List Char) (hl : IsBlank l) (hd : IsNumeral ds)
    (hr : IsBlank r) : trim (l ++ ds ++ r) = ds := by
  unfold trim
  rw [List.append_assoc, trimStart_blank_append _ _ hl, trimStart_numeral_append _ _ hd,
    trimEnd_append_blank _ _ hr, trimEnd_numeral _ hd]

theorem trim_numeral (ds : List Char) (hd : IsNumeral ds) : trim ds = ds := by
  have := trim_padded_numeral [] ds [] (fun _ h => absurd h (List.not_mem_nil _)) hd
    (fun _ h => absurd h (List.not_mem_nil _))
  simpa using this

theorem takeWhile_isDigit_numeral (ds : List Char) (h : ∀ c ∈ ds, c.isDigit = true) :
    ds.takeWhile Char.isDigit = ds := by
  induction ds with
  | nil => rfl
  | cons c cs ih =>
    rw [List.takeWhile_cons, if_pos (h c (List.mem_cons_self _ _)),
      ih (fun d hd => h d (List.mem_cons_of_mem _ hd))]

theorem parseInt_numeral (ds : List Char) (h : IsNumeral ds) :
    parseInt ds = some (digitsValue ds : Int) := by
  obtain ⟨hne, hd⟩ := h
  cases ds with
  | nil => exact absurd rfl hne
  | cons c cs =>
    have hc := hd c (List.mem_cons_self _ _)
    have hsep := isDigit_ne_sep c hc
    have ht : trimStart (c :: cs) = c :: cs :=
      trimStart_cons_of_not c cs (not_isWhiteSpace_of_isDigit c hc)
    have htw := takeWhile_isDigit_numeral (c :: cs) hd
    have hstrip : stripSign (c :: cs) = c :: cs := by
      unfold stripSign
      split
      · rename_i heq
        exact absurd (List.cons.inj heq).1 hsep.2.1
      · rename_i heq
        exact absurd (List.cons.inj heq).1 hsep.2.2
      · rfl
    have hsign : signOf (c :: cs) = 1 := by
      unfold signOf
      split
      · rename_i heq
        exact absurd (List.cons.inj heq).1 hsep.2.1
      · rfl
    unfold parseInt
    simp only [ht, hstrip, htw, hsign, one_mul]

/-! ## What a well-formed token selects -/

theorem not_mem_of_isNumeral (ds : List Char) (h : IsNumeral ds) :
    ',' ∉ ds ∧ '-' ∉ ds :=
  ⟨fun hm => (isDigit_ne_sep _ (h.2 _ hm)).1 rfl, fun hm => (isDigit_ne_sep _ (h.2 _ hm)).2.1 rfl⟩

theorem not_mem_of_isBlank (ws : List Char) (h : IsBlank ws) :
    ',' ∉ ws ∧ '-' ∉ ws :=
  ⟨fun hm => (isWhiteSpace_ne_sep _ (h _ hm)).1 rfl, fun hm => (isWhiteSpace_ne_sep _ (h _ hm)).2 rfl⟩

theorem comma_not_mem_renderPadded (p : Padding) (t : Token) (hp : p.Blank)
    (ht : t.WellFormed) : ',' ∉ t.renderPadded p := by
  obtain ⟨h1, h2, h3, h4⟩ := hp
  cases t with
  | single n =>
    have hn := not_mem_of_isNumeral n ht
    simp only [Token.renderPadded, List.mem_append, not_or]
    exact ⟨⟨(not_mem_of_isBlank _ h1).1, hn.1⟩, (not_mem_of_isBlank _ h4).1⟩
  | span a b =>
    have ha := not_mem_of_isNumeral a ht.1
    have hb := not_mem_of_isNumeral b ht.2
    simp only [Token.renderPadded, List.mem_append, List.mem_cons, not_or]
    exact ⟨⟨⟨(not_mem_of_isBlank _ h1).1, ha.1⟩, (not_mem_of_isBlank _ h2).1⟩, by decide,
      ⟨(not_mem_of_isBlank _ h3).1, hb.1⟩, (not_mem_of_isBlank _ h4).1⟩

theorem mem_partIndices_renderPadded (maxPage : Int) (p : Padding) (t : Token)
    (hp : p.Blank) (ht : t.WellFormed) (k : Int) :
    k ∈ partIndices maxPage (t.renderPadded p) ↔
      0 ≤ k ∧ k < maxPage ∧ t.selects k = true := by
  obtain ⟨h1, h2, h3, h4⟩ := hp
  cases t with
  | single n =>
    have hn := not_mem_of_isNumeral n ht
    have hinc : includes (p.before ++ n ++ p.after) '-' = false := by
      simp only [includes, List.contains_eq_any_beq, List.any_eq_false, beq_iff_eq]
      intro c hc hcd
      subst hcd
      simp only [List.mem_append] at hc
      rcases hc with (hc | hc) | hc
      · exact (not_mem_of_isBlank _ h1).2 hc
      · exact hn.2 hc
      · exact (not_mem_of_isBlank _ h4).2 hc
    simp only [partIndices, processPart, Token.renderPadded, hinc, Bool.false_eq_true,
      if_false, trim_padded_numeral _ _ _ h1 ht h4, parseInt_numeral _ ht, Token.selects,
      decide_eq_true_eq]
    split
    · rw [mem_setAdd]
      simp only [List.not_mem_nil, false_or]
      omega
    · simp only [List.not_mem_nil, false_iff]
      omega
  | span a b =>
    have ha := not_mem_of_isNumeral a ht.1
    have hb := not_mem_of_isNumeral b ht.2
    have hinc : includes ((p.before ++ a ++ p.beforeDash) ++ '-' ::
        (p.afterDash ++ b ++ p.after)) '-' = true := by
      simp [includes]
    have hl : '-' ∉ p.before ++ a ++ p.beforeDash := by
      simp only [List.mem_append, not_or]
      exact ⟨⟨(not_mem_of_isBlank _ h1).2, ha.2⟩, (not_mem_of_isBlank _ h2).2⟩
    have hr : '-' ∉ p.afterDash ++ b ++ p.after := by
      simp only [List.mem_append, not_or]
      exact ⟨⟨(not_mem_of_isBlank _ h3).2, hb.2⟩, (not_mem_of_isBlank _ h4).2⟩
    simp only [partIndices, processPart, Token.renderPadded, hinc, if_true,
      split_append_sep, split_of_not_mem _ _ hl, split_of_not_mem _ _ hr,
      List.singleton_append, List.map_cons, List.map_nil,
      trim_padded_numeral _ _ _ h1 ht.1 h2, trim_padded_numeral _ _ _ h3 ht.2 h4,
      parseInt_numeral _ ht.1, parseInt_numeral _ ht.2, Token.selects, decide_eq_true_eq,
      mem_spanLoop, List.not_mem_nil, false_or]
    omega

theorem renderPadded_nil (t : Token) : t.renderPadded ⟨[], [], [], []⟩ = t.render := by
  cases t <;> simp [Token.renderPadded, Token.render]

theorem mem_partIndices_render (maxPage : Int) (t : Token) (ht : t.WellFormed) (k : Int) :
    k ∈ partIndices maxPage t.render ↔ 0 ≤ k ∧ k < maxPage ∧ t.selects k = true := by
  rw [← renderPadded_nil]
  exact mem_partIndices_renderPadded maxPage _ t
    ⟨fun _ h => absurd h (List.not_mem_nil _), fun _ h => absurd h (List.not_mem_nil _),
      fun _ h => absurd h (List.not_mem_nil _), fun _ h => absurd h (List.not_mem_nil _)⟩ ht k

theorem partIndices_nil (maxPage : Int) : partIndices maxPage [] = [] := by
  rfl

/-- Membership in the parser's output for parts joined by commas. -/
theorem mem_parse_joinWith (maxPage : Int) (parts : List (List Char))
    (h : ∀ p ∈ parts, ',' ∉ p) (k : Int) :
    k ∈ parsePageRangesChars (joinWith ',' parts) maxPage ↔
      ∃ p ∈ parts, k ∈ partIndices maxPage p := by
  rw [mem_parsePageRangesChars]
  cases hparts : parts with
  | nil =>
    simp only [split_joinWith_nil, List.mem_singleton, exists_eq_left, partIndices_nil,
      List.not_mem_nil, false_and, exists_false]
  | cons x xs =>
    rw [← hparts, split_joinWith _ _ (by simp [hparts]) h]

/-- Membership in the parser's output for a padded well-formed expression. -/
theorem mem_parse_renderPaddedExpr (maxPage : Int) (toks : List (Padding × Token))
    (h : ∀ pt ∈ toks, pt.1.Blank ∧ pt.2.WellFormed) (k : Int) :
    k ∈ parsePageRangesChars (renderPaddedExpr toks) maxPage ↔
      0 ≤ k ∧ k < maxPage ∧ ∃ pt ∈ toks, pt.2.selects k = true := by
  rw [mem_parsePageRangesChars]
  unfold renderPaddedExpr
  cases htoks : toks with
  | nil =>
    simp only [List.map_nil, split_joinWith_nil, List.mem_singleton, exists_eq_left,
      partIndices_nil, List.not_mem_nil, false_and, exists_false, and_false]
  | cons x xs =>
    rw [← htoks, split_joinWith _ _ (by simp [htoks])]
    · simp only [List.mem_map, exists_exists_and_eq_and]
      constructor
      · rintro ⟨pt, hpt, hk⟩
        have := (mem_partIndices_renderPadded maxPage pt.1 pt.2 (h pt hpt).1 (h pt hpt).2 k).mp hk
        exact ⟨this.1, this.2.1, pt, hpt, this.2.2⟩
      · rintro ⟨h0, h1, pt, hpt, hk⟩
        exact ⟨pt, hpt, (mem_partIndices_renderPadded maxPage pt.1 pt.2 (h pt hpt).1
          (h pt hpt).2 k).mpr ⟨h0, h1, hk⟩⟩
    · intro q hq
      rw [List.mem_map] at hq
      obtain ⟨pt, hpt, rfl⟩ := hq
      exact comma_not_mem_renderPadded _ _ (h pt hpt).1 (h pt hpt).2

theorem sorted_pageIndexList (maxPage : Int) : (pageIndexList maxPage).Sorted (· < ·) := by
  unfold pageIndexList
  exact List.Pairwise.map _ (fun a b hab => Int.ofNat_lt.mpr hab) (List.pairwise_lt_range _)

theorem mem_pageIndexList (maxPage k : Int) :
    k ∈ pageIndexList maxPage ↔ 0 ≤ k ∧ k < maxPage := by
  unfold pageIndexList
  rw [List.mem_map]
  constructor
  · rintro ⟨j, hj, rfl⟩
    rw [List.mem_range] at hj
    omega
  · rintro ⟨h0, h1⟩
    refine ⟨k.toNat, List.mem_range.mpr ?_, ?_⟩ <;> omega

/-- The parser's output on a well-formed expression, as a filter of the index list. -/
theorem parsePageRangesChars_renderExpr (maxPage : Int) (toks : List Token)
    (hwf : ∀ t ∈ toks, t.WellFormed) :
    parsePageRangesChars (renderExpr toks) maxPage =
      (pageIndexList maxPage).filter (fun k => toks.any (fun t => t.selects k)) := by
  apply eq_of_sorted_of_mem_iff
  · exact sorted_parsePageRangesChars _ _
  · exact List.Pairwise.filter _ (sorted_pageIndexList maxPage)
  · intro k
    have hpad : renderExpr toks =
        renderPaddedExpr (toks.map (fun t => ((⟨[], [], [], []⟩ : Padding), t))) := by
      unfold renderExpr renderPaddedExpr
      rw [List.map_map]
      congr 1
      apply List.map_congr_left
      intro t _
      exact (renderPadded_nil t).symm
    have hblank : ∀ pt ∈ toks.map (fun t => ((⟨[], [], [], []⟩ : Padding), t)),
        pt.1.Blank ∧ pt.2.WellFormed := by
      intro pt hpt
      rw [List.mem_map] at hpt
      obtain ⟨t, ht, rfl⟩ := hpt
      exact ⟨⟨fun _ h => absurd h (List.not_mem_nil _), fun _ h => absurd h (List.not_mem_nil _),
        fun _ h => absurd h (List.not_mem_nil _), fun _ h => absurd h (List.not_mem_nil _)⟩,
        hwf t ht⟩
    rw [hpad, mem_parse_renderPaddedExpr maxPage _ hblank, List.mem_filter,
      mem_pageIndexList, List.any_eq_true]
    simp only [List.mem_map, exists_exists_and_eq_and]
    tauto

/-! ## Decimal text of a number -/

theorem digitChar_spec (d : Nat) (h : d < 10) :
    (Nat.digitChar d).isDigit = true ∧ digitValue (Nat.digitChar d) = d := by
  interval_cases d <;> exact ⟨rfl, rfl⟩

theorem digitsValue_append_singleton (ds : List Char) (c : Char) :
    digitsValue (ds ++ [c]) = 10 * digitsValue ds + digitValue c := by
  simp [digitsValue, List.foldl_append]

theorem toDigitsCore_spec (fuel : Nat) : ∀ (n : Nat) (ds : List Char), n < fuel →
    Nat.toDigitsCore 10 fuel n ds = Nat.toDigitsCore 10 fuel n [] ++ ds ∧
    IsNumeral (Nat.toDigitsCore 10 fuel n []) ∧
    digitsValue (Nat.toDigitsCore 10 fuel n []) = n := by
  induction fuel with
  | zero => intro n ds h; omega
  | succ fuel ih =>
    intro n ds hn
    have hd := digitChar_spec (n % 10) (Nat.mod_lt _ (by decide))
    by_cases h0 : n / 10 = 0
    · simp only [Nat.toDigitsCore, h0, if_true]
      refine ⟨rfl, ⟨by simp, ?_⟩, ?_⟩
      · intro c hc
        rw [List.mem_singleton] at hc
        rw [hc]; exact hd.1
      · simp only [digitsValue, List.foldl_cons, List.foldl_nil, hd.2]
        omega
    · have hlt : n / 10 < fuel := by omega
      obtain ⟨e1, _, _⟩ := ih (n / 10) (Nat.digitChar (n % 10) :: ds) hlt
      obtain ⟨e2, hnum, hval⟩ := ih (n / 10) [Nat.digitChar (n % 10)] hlt
      simp only [Nat.toDigitsCore, h0, if_false]
      rw [e1, e2]
      refine ⟨by simp, ⟨by simp, ?_⟩, ?_⟩
      · intro c hc
        rw [List.mem_append, List.mem_singleton] at hc
        rcases hc with hc | hc
        · exact hnum.2 c hc
        · rw [hc]; exact hd.1
      · rw [digitsValue_append_singleton, hval, hd.2]
        omega

theorem toString_nat_spec (n : Nat) :
    IsNumeral (toString n).toList ∧ digitsValue (toString n).toList = n := by
  have h := toDigitsCore_spec (n + 1) n [] (Nat.lt_succ_self n)
  exact ⟨h.2.1, h.2.2⟩

/-! ## The PDF library on page lists -/

theorem addPages_eq {Page : Type} (doc pages : List Page) :
    addPages doc pages = doc ++ pages := by
  unfold addPages
  induction pages generalizing doc with
  | nil => simp
  | cons p ps ih => rw [List.foldl_cons, ih]; simp

theorem copyPages_of_bounds {Page : Type} (src : List Page) (indices : List Int)
    (h : ∀ i ∈ indices, 0 ≤ i ∧ i < src.length) :
    ∃ out, copyPages src indices = some out ∧
      List.Forall₂ (fun i page => 0 ≤ i ∧ src[i.toNat]? = some page) indices out := by
  induction indices with
  | nil => exact ⟨[], rfl, List.Forall₂.nil⟩
  | cons i rest ih =>
    obtain ⟨out, hout, hall⟩ := ih (fun j hj => h j (List.mem_cons_of_mem _ hj))
    have hi := h i (List.mem_cons_self _ _)
    have hlt : i.toNat < src.length := by omega
    refine ⟨src[i.toNat] :: out, ?_, List.Forall₂.cons ⟨hi.1, List.getElem?_eq_getElem hlt⟩ hall⟩
    unfold copyPages
    rw [if_pos hi.1, hout, List.getElem?_eq_getElem hlt]

theorem copyPages_all {Page : Type} (front rest : List Page) :
    copyPages (front ++ rest)
      ((List.range' front.length rest.length).map (fun (k : Nat) => (k : Int))) =
      some rest := by
  induction rest generalizing front with
  | nil => rfl
  | cons p ps ih =>
    have h := ih (front ++ [p])
    simp only [List.append_assoc, List.singleton_append, List.length_append,
      List.length_singleton] at h
    simp only [List.length_cons, List.range'_succ, List.map_cons, copyPages]
    rw [h]
    simp [List.getElem_append_right]

theorem copyPages_pageIndexList {Page : Type} (pages : List Page) :
    copyPages pages (pageIndexList pages.length) = some pages := by
  have h := copyPages_all [] pages
  simp only [List.nil_append, List.length_nil] at h
  unfold pageIndexList
  rw [Int.toNat_ofNat, List.range_eq_range']
  exact h

/-! ## Claims about the parser -/

/-- C2: for every input string and every integer `maxPage`, the list returned by
`parsePageRanges` is strictly increasing, and each of its elements `k` satisfies
`0 ≤ k ≤ maxPage - 1`. -/
theorem parsePageRanges_sorted_bounded (ranges : String) (maxPage : Int) :
    (parsePageRanges ranges maxPage).Sorted (· < ·) ∧
      ∀ k ∈ parsePageRanges ranges maxPage, 0 ≤ k ∧ k ≤ maxPage - 1 := by
  refine ⟨sorted_parsePageRangesChars _ _, ?_⟩
  intro k hk
  unfold parsePageRanges at hk
  rw [mem_parsePageRangesChars] at hk
  obtain ⟨p, _, hp⟩ := hk
  exact mem_partIndices_bounds maxPage p k hp

theorem partIndices_of_dropped (maxPage : Int) (part : List Char)
    (h : Dropped part = true) : partIndices maxPage part = [] := by
  unfold Dropped at h
  unfold partIndices processPart
  split
  · rename_i hinc
    rw [if_pos hinc] at h
    cases hs : split '-' part with
    | nil => rfl
    | cons x xs =>
      cases xs with
      | nil =>
        simp only [List.map_cons, List.map_nil]
        cases parseInt (trim x) <;> rfl
      | cons y ys =>
        rw [hs] at h
        simp only [readsNoNumber, Bool.or_eq_true, Option.isNone_iff_eq_none] at h
        simp only [List.map_cons]
        rcases h with h | h
        · rw [h]
        · rw [h]
          cases parseInt (trim x) <;> rfl
  · rename_i hinc
    rw [if_neg hinc] at h
    simp only [readsNoNumber, Option.isNone_iff_eq_none] at h
    rw [h]

/-- C3 fails as stated: `3abc`, `2.5` and `1-3-5` are neither a decimal numeral
nor a span of two, yet each adds indices (`parseInt` reads a leading number and
ignores the rest; a third `-` piece is ignored). -/
theorem malformed_token_selects :
    (∀ t : Token, t.WellFormed → t.render ≠ "3abc".toList) ∧
    parsePageRanges "1,3abc" 5 = [0, 2] ∧ parsePageRanges "1" 5 = [0] ∧
    parsePageRanges "2.5" 5 = [1] ∧ parsePageRanges "1-3-5" 5 = [0, 1, 2] ∧
    parsePageRanges "" 5 = [] := by
  refine ⟨?_, by decide, by decide, by decide, by decide, by decide⟩
  intro t ht heq
  cases t with
  | single n =>
    simp only [Token.render] at heq
    subst heq
    exact absurd ht (by decide)
  | span a b =>
    simp only [Token.render] at heq
    have : '-' ∈ "3abc".toList := by
      rw [← heq]
      simp
    exact absurd this (by decide)

/-- C3, amended: a token for which a needed `parseInt` yields `NaN` (no `-` and the
trimmed token does not start with a number; or a `-` and the first or second
`-`-separated piece does not start with a number, as in `a`, `-`, `5-`) adds no
index: deleting it from the expression leaves the output unchanged. -/
theorem parsePageRanges_dropped_token (maxPage : Int) (pre post : List (List Char))
    (tok : List Char) (hcomma : ∀ p ∈ pre ++ tok :: post, ',' ∉ p)
    (hdrop : Dropped tok = true) :
    parsePageRanges (String.mk (joinWith ',' (pre ++ tok :: post))) maxPage =
      parsePageRanges (String.mk (joinWith ',' (pre ++ post))) maxPage := by
  apply eq_of_sorted_of_mem_iff _ _ (sorted_parsePageRangesChars _ _)
    (sorted_parsePageRangesChars _ _)
  intro k
  show k ∈ parsePageRangesChars (joinWith ',' (pre ++ tok :: post)) maxPage ↔
    k ∈ parsePageRangesChars (joinWith ',' (pre ++ post)) maxPage
  have hcomma2 : ∀ p ∈ pre ++ post, ',' ∉ p := by
    intro p hp
    apply hcomma p
    rw [List.mem_append] at hp ⊢
    rcases hp with hp | hp
    · exact Or.inl hp
    · exact Or.inr (List.mem_cons_of_mem _ hp)
  rw [mem_parse_joinWith _ _ hcomma, mem_parse_joinWith _ _ hcomma2]
  simp only [List.mem_append, List.mem_cons]
  constructor
  · rintro ⟨p, hp | rfl | hp, hk⟩
    · exact ⟨p, Or.inl hp, hk⟩
    · rw [partIndices_of_dropped _ _ hdrop] at hk
      exact absurd hk (List.not_mem_nil _)
    · exact ⟨p, Or.inr hp, hk⟩
  · rintro ⟨p, hp | hp, hk⟩
    · exact ⟨p, Or.inl hp, hk⟩
    · exact ⟨p, Or.inr (Or.inr hp), hk⟩

theorem parsePageRanges_dropped_token_witness :
    (∀ p ∈ ["2".toList] ++ "5-".toList :: ["4".toList], ',' ∉ p) ∧
    Dropped "5-".toList = true ∧
    parsePageRanges (String.mk (joinWith ',' (["2".toList] ++ "5-".toList :: ["4".toList]))) 5 =
      parsePageRanges (String.mk (joinWith ',' (["2".toList] ++ ["4".toList]))) 5 :=
  ⟨by decide, by decide,
    parsePageRanges_dropped_token 5 ["2".toList] ["4".toList] "5-".toList (by decide)
      (by decide)⟩

/-- C4 fails as stated: the part `5-` has no second number and is dropped, so the
index 4 is not in the output. -/
theorem parsePageRanges_malformed_example_ne :
    parsePageRanges "a,2,-,5-" 5 ≠ [1, 4] := by
  decide

/-- C4, amended: `parsePageRanges("a,2,-,5-", 5)` equals `[1]`. -/
theorem parsePageRanges_malformed_example :
    parsePageRanges "a,2,-,5-" 5 = [1] := by
  decide

/-- C5: `parsePageRanges(a + "," + b, maxPage)` is the ascending, duplicate-free
union of `parsePageRanges(a, maxPage)` and `parsePageRanges(b, maxPage)`; two
expressions with the same set of comma-separated tokens (so: tokens permuted or
repeated) give the same output; `"3,1,2,1"` with `maxPage = 5` gives `[0,1,2]`. -/
theorem parsePageRanges_union (a b : String) (maxPage : Int) :
    parsePageRanges (a ++ "," ++ b) maxPage =
      ((parsePageRanges a maxPage ++ parsePageRanges b maxPage).dedup).insertionSort
        (· ≤ ·) ∧
    (parsePageRanges (a ++ "," ++ b) maxPage).Sorted (· < ·) ∧
    (∀ parts₁ parts₂ : List (List Char), (∀ p ∈ parts₁, ',' ∉ p) →
      (∀ p, p ∈ parts₁ ↔ p ∈ parts₂) →
      parsePageRanges (String.mk (joinWith ',' parts₁)) maxPage =
        parsePageRanges (String.mk (joinWith ',' parts₂)) maxPage) ∧
    parsePageRanges "3,1,2,1" 5 = [0, 1, 2] := by
  have hsorted : ∀ r : String, (parsePageRanges r maxPage).Sorted (· < ·) :=
    fun r => sorted_parsePageRangesChars _ _
  refine ⟨?_, hsorted _, ?_, by decide⟩
  · apply eq_of_sorted_of_mem_iff _ _ (hsorted _)
    · have hs := List.sorted_insertionSort (· ≤ · : Int → Int → Prop)
        ((parsePageRanges a maxPage ++ parsePageRanges b maxPage).dedup)
      exact hs.lt_of_le ((List.perm_insertionSort _ _).nodup_iff.mpr (List.nodup_dedup _))
    · intro k
      rw [List.mem_insertionSort, List.mem_dedup, List.mem_append]
      unfold parsePageRanges
      have hl : (a ++ "," ++ b).toList = a.toList ++ ',' :: b.toList := by
        simp [String.toList, String.data_append]
      rw [hl, mem_parsePageRangesChars, mem_parsePageRangesChars, mem_parsePageRangesChars,
        split_append_sep]
      simp only [List.mem_append]
      constructor
      · rintro ⟨p, hp | hp, hk⟩
        · exact Or.inl ⟨p, hp, hk⟩
        · exact Or.inr ⟨p, hp, hk⟩
      · rintro (⟨p, hp, hk⟩ | ⟨p, hp, hk⟩)
        · exact ⟨p, Or.inl hp, hk⟩
        · exact ⟨p, Or.inr hp, hk⟩
  · intro parts₁ parts₂ hcomma hsame
    apply eq_of_sorted_of_mem_iff _ _ (hsorted _) (hsorted _)
    intro k
    show k ∈ parsePageRangesChars (joinWith ',' parts₁) maxPage ↔
      k ∈ parsePageRangesChars (joinWith ',' parts₂) maxPage
    rw [mem_parse_joinWith _ _ hcomma,
      mem_parse_joinWith _ _ (fun p hp => hcomma p ((hsame p).mpr hp))]
    constructor
    · rintro ⟨p, hp, hk⟩
      exact ⟨p, (hsame p).mp hp, hk⟩
    · rintro ⟨p, hp, hk⟩
      exact ⟨p, (hsame p).mpr hp, hk⟩

theorem parsePageRanges_union_witness :
    parsePageRanges ("3,1" ++ "," ++ "2,1") 5 =
      ((parsePageRanges "3,1" 5 ++ parsePageRanges "2,1" 5).dedup).insertionSort (· ≤ ·) ∧
    parsePageRanges (String.mk (joinWith ',' ["3".toList, "1".toList, "2".toList])) 5 =
      parsePageRanges (String.mk (joinWith ','
        ["1".toList, "2".toList, "3".toList, "1".toList])) 5 :=
  ⟨(parsePageRanges_union "3,1" "2,1" 5).1,
    (parsePageRanges_union "" "" 5).2.2.1 ["3".toList, "1".toList, "2".toList]
      ["1".toList, "2".toList, "3".toList, "1".toList] (by decide)
      (by intro p; simp only [List.mem_cons, List.not_mem_nil, or_false]; tauto)⟩

theorem length_pageIndexList (n : Nat) : (pageIndexList n).length = n := by
  simp [pageIndexList]

theorem full_span_toList (B : Nat) :
    ("1-" ++ toString B).toList = renderExpr [Token.span ['1'] (toString B).toList] := by
  simp [renderExpr, joinWith, Token.render, String.toList, String.data_append]

theorem parsePageRangesChars_full_span (m B : Nat) (hB : m ≤ B) :
    parsePageRangesChars ("1-" ++ toString B).toList m = pageIndexList m := by
  have hnum := toString_nat_spec B
  rw [full_span_toList, parsePageRangesChars_renderExpr _ _ (by
    intro t ht
    rw [List.mem_singleton] at ht
    subst ht
    exact ⟨by decide, hnum.1⟩)]
  rw [List.filter_eq_self]
  intro k hk
  rw [mem_pageIndexList] at hk
  simp only [List.any_cons, List.any_nil, Bool.or_false, Token.selects, hnum.2,
    decide_eq_true_eq]
  have h1 : digitsValue ['1'] = 1 := by decide
  rw [h1]
  omega

theorem jsRem_spec (a : Int) :
    360 ∣ jsRem a 360 - a ∧ -360 < jsRem a 360 ∧ jsRem a 360 < 360 ∧
    (0 ≤ a → jsRem a 360 = a % 360) ∧ (a < 0 → jsRem a 360 ≤ 0) := by
  unfold jsRem
  rcases le_or_lt 0 a with h | h
  · have e : Int.tmod a 360 = a % 360 := Int.tmod_eq_emod h (by decide)
    rw [e]
    refine ⟨?_, ?_, ?_, fun _ => rfl, fun h' => ?_⟩ <;> omega
  · have e : Int.tmod a 360 = -((-a) % 360) := by
      have h1 : Int.tmod (-a) 360 = (-a) % 360 := Int.tmod_eq_emod (by omega) (by decide)
      have h2 : Int.tmod (-a) 360 = -(Int.tmod a 360) := by
        rw [Int.tmod_def, Int.tmod_def, Int.neg_tdiv]
        ring
      rw [← h1, h2, neg_neg]
    rw [e]
    refine ⟨?_, ?_, ?_, fun h' => ?_, fun _ => ?_⟩ <;> omega

/-- C8: white space around tokens and around the `-` of a span is ignored: for a
well-formed expression, inserting white space (spaces included) before or after a
token, or before or after the `-` of a span, does not change the output of
`parsePageRanges`; `" 1 - 3 , 5 "` gives the same result as `"1-3,5"`. -/
theorem parsePageRanges_whitespace (maxPage : Int) (toks : List (Padding × Token))
    (h : ∀ pt ∈ toks, pt.1.Blank ∧ pt.2.WellFormed) :
    parsePageRanges (String.mk (renderPaddedExpr toks)) maxPage =
      parsePageRanges (String.mk (renderExpr (toks.map Prod.snd))) maxPage ∧
    parsePageRanges " 1 - 3 , 5 " maxPage = parsePageRanges "1-3,5" maxPage := by
  have key : ∀ toks : List (Padding × Token), (∀ pt ∈ toks, pt.1.Blank ∧ pt.2.WellFormed) →
      parsePageRangesChars (renderPaddedExpr toks) maxPage =
        parsePageRangesChars (renderExpr (toks.map Prod.snd)) maxPage := by
    intro toks h
    rw [parsePageRangesChars_renderExpr maxPage _ (by
      intro t ht
      rw [List.mem_map] at ht
      obtain ⟨pt, hpt, rfl⟩ := ht
      exact (h pt hpt).2)]
    apply eq_of_sorted_of_mem_iff _ _ (sorted_parsePageRangesChars _ _)
      (List.Pairwise.filter _ (sorted_pageIndexList maxPage))
    intro k
    rw [mem_parse_renderPaddedExpr maxPage _ h, List.mem_filter, mem_pageIndexList,
      List.any_eq_true]
    simp only [List.mem_map, exists_exists_and_eq_and]
    tauto
  refine ⟨key toks h, ?_⟩
  exact key [(⟨[' '], [' '], [' '], [' ']⟩, Token.span ['1'] ['3']),
    (⟨[' '], [], [], [' ']⟩, Token.single ['5'])] (by decide)

theorem parsePageRanges_whitespace_witness :
    (∀ pt ∈ [((⟨[' ', ' '], [' '], ['\t'], []⟩ : Padding), Token.span ['2'] ['4']),
        (⟨[], [], [], [' ']⟩, Token.single ['7'])], pt.1.Blank ∧ pt.2.WellFormed) ∧
    parsePageRanges (String.mk (renderPaddedExpr
        [((⟨[' ', ' '], [' '], ['\t'], []⟩ : Padding), Token.span ['2'] ['4']),
        (⟨[], [], [], [' ']⟩, Token.single ['7'])])) 10 =
      parsePageRanges (String.mk (renderExpr
        [Token.span ['2'] ['4'], Token.single ['7']])) 10 :=
  ⟨by decide, (parsePageRanges_whitespace 10 _ (by decide)).1⟩

/-- The worked examples of range expansion and clipping. -/
theorem parsePageRanges_examples :
    parsePageRanges "1-3,5" 10 = [0, 1, 2, 4] ∧ parsePageRanges "1-100" 3 = [0, 1, 2] ∧
    parsePageRanges " 1 - 3 , 5 " 10 = [0, 1, 2, 4] ∧ parsePageRanges "+3, 007" 10 = [2, 6] := by
  decide

/-! ## The merge loop and the file name of a conversion -/

theorem mergeLoop_loaded {Page : Type} (docs : List (List Page)) (mergedPdf : List Page) :
    mergeLoop mergedPdf (docs.map (fun d => (⟨some d⟩ : UploadedFile Page))) =
      some (mergedPdf ++ docs.flatten) := by
  induction docs generalizing mergedPdf with
  | nil => simp [mergeLoop]
  | cons d ds ih =>
    simp only [List.map_cons, mergeLoop, copyPages_pageIndexList, addPages_eq, ih,
      List.flatten_cons, List.append_assoc]

theorem mergeLoop_load_failure {Page : Type} (files : List (UploadedFile Page))
    (mergedPdf : List Page) (h : ∃ f ∈ files, f.load = none) :
    mergeLoop mergedPdf files = none := by
  induction files generalizing mergedPdf with
  | nil =>
    obtain ⟨f, hf, _⟩ := h
    exact absurd hf (List.not_mem_nil _)
  | cons file rest ih =>
    unfold mergeLoop
    cases hload : file.load with
    | none => rfl
    | some pdf =>
      simp only [copyPages_pageIndexList]
      apply ih
      obtain ⟨f, hf, hnone⟩ := h
      rcases List.mem_cons.mp hf with rfl | hf
      · rw [hload] at hnone
        exact absurd hnone (by simp)
      · exact ⟨f, hf, hnone⟩

theorem replaceFirst_suffix (tail replacement front : List Char) (h : '.' ∉ front) :
    replaceFirst ('.' :: tail) replacement (front ++ '.' :: tail) = front ++ replacement := by
  induction front with
  | nil =>
    simp [replaceFirst]
  | cons c cs ih =>
    have hc : c ≠ '.' := fun e => h (e ▸ List.mem_cons_self _ _)
    have hcs : '.' ∉ cs := fun e => h (List.mem_cons_of_mem _ e)
    have hne : ¬ ((c :: cs ++ '.' :: tail).take ('.' :: tail).length = '.' :: tail) := by
      simp only [List.cons_append, List.length_cons, List.take_succ_cons, List.cons.injEq,
        not_and]
      intro e
      exact absurd e hc
    simp only [List.cons_append] at hne ⊢
    rw [replaceFirst, if_neg hne, ih hcs]

theorem converted_name_toList (now : Nat) (ext : String) :
    ("converted-" ++ toString now ++ ext).toList =
      ("converted-".toList ++ (toString now).toList) ++ ext.toList := by
  simp [String.toList, String.data_append]

theorem jsReplace_converted_name (now : Nat) (tail : List Char) (replacement : String) :
    jsReplace ("converted-" ++ toString now ++ String.mk ('.' :: tail)) (String.mk ('.' :: tail))
      replacement = "converted-" ++ toString now ++ replacement := by
  have hfront : '.' ∉ "converted-".toList ++ (toString now).toList := by
    rw [List.mem_append, not_or]
    refine ⟨by decide, fun hm => ?_⟩
    have hd := (toString_nat_spec now).1.2 _ hm
    exact absurd hd (by decide)
  unfold jsReplace
  apply String.ext
  have h := replaceFirst_suffix tail replacement.toList _ hfront
  have e1 := converted_name_toList now (String.mk ('.' :: tail))
  have e2 := converted_name_toList now replacement
  simp only [String.toList] at h e1 e2 ⊢
  rw [e1, e2]
  exact h

/-! ## Claims about the other handlers -/

/-- C12, the code at the failing input: for the input extension `.pptx` or `.ppt`
and the output format `pdf`, whatever the library would produce, the conversion
handler sends no response at all; for the six other pairs that are not rejected,
with the library calls succeeding, it sends a download named
`converted-<timestamp>.<outputFormat>`. -/
theorem convertOffice_presentation_to_pdf (Content : Type) (converted : Option Content)
    (content : Content) (now : Nat) :
    convertOfficeHandler ⟨some ⟨".pptx", converted⟩, some "pdf", now⟩ =
      ConvertResponse.noResponse ∧
    convertOfficeHandler ⟨some ⟨".ppt", converted⟩, some "pdf", now⟩ =
      ConvertResponse.noResponse ∧
    convertOfficeHandler ⟨some ⟨".docx", some content⟩, some "pdf", now⟩ =
      ConvertResponse.download ("converted-" ++ toString now ++ ".pdf") content ∧
    convertOfficeHandler ⟨some ⟨".xlsx", some content⟩, some "pdf", now⟩ =
      ConvertResponse.download ("converted-" ++ toString now ++ ".pdf") content ∧
    convertOfficeHandler ⟨some ⟨".xls", some content⟩, some "pdf", now⟩ =
      ConvertResponse.download ("converted-" ++ toString now ++ ".pdf") content ∧
    convertOfficeHandler ⟨some ⟨".pdf", some content⟩, some "docx", now⟩ =
      ConvertResponse.download ("converted-" ++ toString now ++ ".docx") content ∧
    convertOfficeHandler ⟨some ⟨".pdf", some content⟩, some "xlsx", now⟩ =
      ConvertResponse.download ("converted-" ++ toString now ++ ".xlsx") content ∧
    convertOfficeHandler ⟨some ⟨".pdf", some content⟩, some "pptx", now⟩ =
      ConvertResponse.download ("converted-" ++ toString now ++ ".pptx") content := by
  have hdocx := jsReplace_converted_name now "pdf".toList ".docx"
  have hpptx := jsReplace_converted_name now "pdf".toList ".pptx"
  refine ⟨by simp [convertOfficeHandler], by simp [convertOfficeHandler],
    by simp [convertOfficeHandler], by simp [convertOfficeHandler],
    by simp [convertOfficeHandler], ?_, by simp [convertOfficeHandler], ?_⟩
  · have e : convertOfficeHandler ⟨some ⟨".pdf", some content⟩, some "docx", now⟩ =
        ConvertResponse.download
          (jsReplace ("converted-" ++ toString now ++ ".pdf") ".pdf" ".docx") content := by
      simp [convertOfficeHandler]
    rw [e]
    exact congrArg (fun n => ConvertResponse.download n content) hdocx
  · have e : convertOfficeHandler ⟨some ⟨".pdf", some content⟩, some "pptx", now⟩ =
        ConvertResponse.download
          (jsReplace ("converted-" ++ toString now ++ ".pdf") ".pdf" ".pptx") content := by
      simp [convertOfficeHandler]
    rw [e]
    exact congrArg (fun n => ConvertResponse.download n content) hpptx

/-- C13 fails as stated: the pair `.xls` to `pdf` is not in the set that the
message enumerates, yet the handler does not reject it: with the library calls
succeeding it sends a download. -/
theorem convertOffice_xls_not_rejected :
    (".xls", "pdf") ∉ enumeratedPairs ∧
    convertOfficeHandler ⟨some ⟨".xls", some 0⟩, some "pdf", 1⟩ =
      ConvertResponse.download "converted-1.pdf" 0 ∧
    convertOfficeHandler ⟨some ⟨".xls", some 0⟩, some "pdf", 1⟩ ≠
      ConvertResponse.status 400 (unsupportedMessage ".xls" "pdf") := by
  decide

theorem mem_acceptedPairs (inputFileExtension outputFormat : String) :
    (inputFileExtension, outputFormat) ∈ acceptedPairs ↔
      (inputFileExtension = ".docx" ∧ outputFormat = "pdf") ∨
      ((inputFileExtension = ".xlsx" ∨ inputFileExtension = ".xls") ∧ outputFormat = "pdf") ∨
      (inputFileExtension = ".pdf" ∧ outputFormat = "docx") ∨
      (inputFileExtension = ".pdf" ∧ outputFormat = "xlsx") ∨
      (inputFileExtension = ".pdf" ∧ outputFormat = "pptx") ∨
      ((inputFileExtension = ".pptx" ∨ inputFileExtension = ".ppt") ∧
        outputFormat = "pdf") := by
  simp only [acceptedPairs, List.mem_cons, Prod.mk.injEq, List.not_mem_nil, or_false]
  tauto

/-- The conversion handler either takes one of its conversion branches, and then
its response is not a 400, or it takes the last branch. -/
theorem convertOffice_cases {Content : Type} (inputFileExtension outputFormat : String)
    (converted : Option Content) (now : Nat) (hfmt : outputFormat ≠ "") :
    (∀ msg, convertOfficeHandler
        ⟨some ⟨inputFileExtension, converted⟩, some outputFormat, now⟩ ≠
          ConvertResponse.status 400 msg) ∧
        (inputFileExtension, outputFormat) ∈ acceptedPairs ∨
      convertOfficeHandler ⟨some ⟨inputFileExtension, converted⟩, some outputFormat, now⟩ =
          ConvertResponse.status 400 (unsupportedMessage inputFileExtension outputFormat) ∧
        (inputFileExtension, outputFormat) ∉ acceptedPairs := by
  by_cases hin : (inputFileExtension, outputFormat) ∈ acceptedPairs
  · left
    refine ⟨fun msg => ?_, hin⟩
    rw [mem_acceptedPairs] at hin
    simp only [convertOfficeHandler, if_neg hfmt]
    split_ifs with h1 h2 h3 h4 h5 h6
    · cases converted <;> simp
    · cases converted <;> simp
    · cases converted <;> simp
    · cases converted <;> simp
    · cases converted <;> simp
    · simp
    · exfalso
      rcases hin with h | h | h | h | h | h
      · exact h1 h
      · exact h2 h
      · exact h3 h
      · exact h4 h
      · exact h5 h
      · exact h6 h
  · right
    refine ⟨?_, hin⟩
    rw [mem_acceptedPairs] at hin
    simp only [not_or] at hin
    obtain ⟨h1, h2, h3, h4, h5, h6⟩ := hin
    simp only [convertOfficeHandler, if_neg hfmt, if_neg h1, if_neg h2, if_neg h3, if_neg h4,
      if_neg h5, if_neg h6]

theorem convertOffice_txt_to_pdf {Content : Type} (converted : Option Content) (now : Nat) :
    convertOfficeHandler ⟨some ⟨".txt", converted⟩, some "pdf", now⟩ =
      ConvertResponse.status 400 (unsupportedMessage ".txt" "pdf") := by
  simp [convertOfficeHandler]

/-- C13, amended: in the conversion handler, with a file and a non-empty output
format, the response is the 400 message for an unsupported conversion if and only
if the pair of lower-cased input extension and output format is none of `.docx` to
`pdf`, `.xlsx` to `pdf`, `.xls` to `pdf`, `.pdf` to `docx`, `.pdf` to `xlsx`, `.pdf`
to `pptx`, `.pptx` to `pdf`, `.ppt` to `pdf`; `.txt` to `pdf` is rejected with
that message. -/
theorem convertOffice_unsupported_iff (Content : Type) (inputFileExtension : String)
    (outputFormat : String) (converted : Option Content) (now : Nat)
    (hfmt : outputFormat ≠ "") :
    (convertOfficeHandler ⟨some ⟨inputFileExtension, converted⟩, some outputFormat, now⟩ =
        ConvertResponse.status 400 (unsupportedMessage inputFileExtension outputFormat) ↔
      (inputFileExtension, outputFormat) ∉ acceptedPairs) ∧
    ((∃ msg, convertOfficeHandler
        ⟨some ⟨inputFileExtension, converted⟩, some outputFormat, now⟩ =
          ConvertResponse.status 400 msg) ↔
      (inputFileExtension, outputFormat) ∉ acceptedPairs) ∧
    convertOfficeHandler ⟨some ⟨".txt", converted⟩, some "pdf", now⟩ =
      ConvertResponse.status 400 (unsupportedMessage ".txt" "pdf") := by
  have hcases := convertOffice_cases inputFileExtension outputFormat converted now hfmt
  refine ⟨?_, ?_, convertOffice_txt_to_pdf converted now⟩
  · rcases hcases with ⟨hne, hin⟩ | ⟨heq, hnot⟩
    · exact ⟨fun h => absurd h (hne _), fun h => absurd hin h⟩
    · exact ⟨fun _ => hnot, fun _ => heq⟩
  · rcases hcases with ⟨hne, hin⟩ | ⟨heq, hnot⟩
    · exact ⟨fun ⟨msg, h⟩ => absurd h (hne msg), fun h => absurd hin h⟩
    · exact ⟨fun _ => hnot, fun _ => ⟨_, heq⟩⟩

theorem convertOffice_unsupported_iff_witness :
    "pdf" ≠ "" ∧
    (convertOfficeHandler ⟨some ⟨".txt", some 0⟩, some "pdf", 1⟩ =
        ConvertResponse.status 400 (unsupportedMessage ".txt" "pdf") ↔
      (".txt", "pdf") ∉ acceptedPairs) ∧
    (".txt", "pdf") ∉ acceptedPairs :=
  ⟨by decide, (convertOffice_unsupported_iff Nat ".txt" "pdf" (some 0) 1 (by decide)).1,
    by decide⟩

/-- C14 fails as stated: when the load call of the unlock handler throws because
the input is corrupt, the response is 401, not 500. -/
theorem unlock_corrupt_input_401 :
    unlockHandler (⟨some ⟨fun _ => Except.error LoadFailure.corrupt⟩, none, 0⟩ :
        UnlockRequest Nat) =
      Response.status 401
        "Failed to unlock PDF. Incorrect password or file is not encrypted." ∧
    unlockHandler (⟨some ⟨fun _ => Except.error LoadFailure.corrupt⟩, some "pw", 0⟩ :
        UnlockRequest Nat) =
      Response.status 401
        "Failed to unlock PDF. Incorrect password or file is not encrypted." :=
  ⟨rfl, rfl⟩

/-- C14, amended: for merge, split, rotate, protect, watermark and compress, when
the file and the required fields are present and the load call of the library
throws, the response is 500 with the generic message of the handler; the unlock
handler answers 401 whenever its load call throws, whatever the cause (a wrong or
missing password, or a corrupt input). -/
theorem load_failure_responses (Page : Type) (now : Nat) :
    (∀ files : List (UploadedFile Page), (∃ f ∈ files, f.load = none) →
      mergeHandler ⟨some files, now⟩ =
        Response.status 500 "An error occurred while merging the PDFs.") ∧
    (∀ (file : UploadedFile Page) (ranges : String), file.load = none → ranges ≠ "" →
      splitHandler ⟨some file, some ranges, now⟩ =
        Response.status 500 "An error occurred while splitting the PDF.") ∧
    (∀ (getRotation : Page → Int) (setRotation : Page → Option Int → Option Page)
      (file : UploadedFile Page) (angle : String), file.load = none → angle ≠ "" →
      rotateHandler getRotation setRotation ⟨some file, some angle, now⟩ =
        Response.status 500 "An error occurred while rotating the PDF.") ∧
    (∀ (decorate : String → List Page → Option (List Page)) (encryptionThrows : Bool)
      (file : UploadedFile Page) (password : String), file.load = none → password ≠ "" →
      protectHandler decorate encryptionThrows ⟨some file, some password, now⟩ =
        Response.status 500 "An error occurred while protecting the PDF.") ∧
    (∀ (stamp : String → List Page → Option (List Page)) (file : UploadedFile Page)
      (text : String), file.load = none → text ≠ "" →
      watermarkHandler stamp ⟨some file, some text, now⟩ =
        Response.status 500 "An error occurred while adding the watermark.") ∧
    (∀ file : UploadedFile Page, file.load = none →
      compressHandler ⟨some file, now⟩ =
        Response.status 500 "An error occurred while compressing the PDF.") ∧
    (∀ (file : LockedFile Page) (cause : LoadFailure),
      file.load none = Except.error cause →
      unlockHandler ⟨some file, none, now⟩ =
          Response.status 401
            "Failed to unlock PDF. Incorrect password or file is not encrypted." ∧
        unlockHandler ⟨some file, some "", now⟩ =
          Response.status 401
            "Failed to unlock PDF. Incorrect password or file is not encrypted.") ∧
    (∀ (file : LockedFile Page) (password : String) (cause : LoadFailure),
      password ≠ "" → file.load (some password) = Except.error cause →
      unlockHandler ⟨some file, some password, now⟩ =
        Response.status 401
          "Failed to unlock PDF. Incorrect password or file is not encrypted.") := by
  refine ⟨?_, ?_, ?_, ?_, ?_, ?_, ?_, ?_⟩
  · intro files h
    have hlen : ¬ files.length = 0 := by
      obtain ⟨f, hf, _⟩ := h
      rw [List.length_eq_zero]
      intro e
      rw [e] at hf
      exact absurd hf (List.not_mem_nil _)
    simp only [mergeHandler, if_neg hlen, mergeLoop_load_failure files [] h]
  · intro file ranges hload hne
    simp only [splitHandler, if_neg hne, hload]
  · intro getRotation setRotation file angle hload hne
    simp only [rotateHandler, if_neg hne, hload]
  · intro decorate encryptionThrows file password hload hne
    simp only [protectHandler, if_neg hne, hload]
  · intro stamp file text hload hne
    simp only [watermarkHandler, if_neg hne, hload]
  · intro file hload
    simp only [compressHandler, hload]
  · intro file cause hload
    constructor <;> simp [unlockHandler, hload]
  · intro file password cause hne hload
    simp [unlockHandler, if_neg hne, hload]

theorem load_failure_responses_witness :
    (∃ f ∈ [(⟨some [1, 2]⟩ : UploadedFile Nat), ⟨none⟩], f.load = none) ∧
    mergeHandler ⟨some [(⟨some [1, 2]⟩ : UploadedFile Nat), ⟨none⟩], 3⟩ =
      Response.status 500 "An error occurred while merging the PDFs." ∧
    (⟨none⟩ : UploadedFile Nat).load = none ∧ "1-2" ≠ "" ∧
    splitHandler ⟨some (⟨none⟩ : UploadedFile Nat), some "1-2", 3⟩ =
      Response.status 500 "An error occurred while splitting the PDF." ∧
    compressHandler ⟨some (⟨none⟩ : UploadedFile Nat), 3⟩ =
      Response.status 500 "An error occurred while compressing the PDF." ∧
    unlockHandler ⟨some (⟨fun _ => Except.error LoadFailure.password⟩ : LockedFile Nat),
        some "guess", 3⟩ =
      Response.status 401
        "Failed to unlock PDF. Incorrect password or file is not encrypted." :=
  ⟨⟨⟨none⟩, by simp, rfl⟩,
    (load_failure_responses Nat 3).1 _ ⟨⟨none⟩, by simp, rfl⟩,
    rfl, by decide,
    (load_failure_responses Nat 3).2.1 ⟨none⟩ "1-2" rfl (by decide),
    (load_failure_responses Nat 3).2.2.2.2.2.1 ⟨none⟩ rfl,
    (load_failure_responses Nat 3).2.2.2.2.2.2.2 ⟨fun _ => Except.error LoadFailure.password⟩
      "guess" LoadFailure.password (by decide) rfl⟩

/-- C15: for every endpoint, a request without the uploaded file or files, or
without a required form field or with an empty one (`ranges` for split, `angle` for
rotate, `password` for protect, `text` for watermark, `outputFormat` for
convert-office), is answered with status 400 and a message, whatever the library
calls would have given; unlock requires no field besides the file: with a file it
is never answered with 400. -/
theorem missing_input_responses (Page Content : Type) (now : Nat) :
    (mergeHandler (⟨none, now⟩ : MergeRequest Page) =
        Response.status 400 "No files uploaded." ∧
      mergeHandler (⟨some [], now⟩ : MergeRequest Page) =
        Response.status 400 "No files uploaded.") ∧
    ((∀ ranges, splitHandler (⟨none, ranges, now⟩ : SplitRequest Page) =
        Response.status 400 "No file uploaded.") ∧
      ∀ file : UploadedFile Page,
        splitHandler ⟨some file, none, now⟩ =
          Response.status 400 "No page ranges provided." ∧
        splitHandler ⟨some file, some "", now⟩ =
          Response.status 400 "No page ranges provided.") ∧
    (∀ (getRotation : Page → Int) (setRotation : Page → Option Int → Option Page),
      (∀ angle, rotateHandler getRotation setRotation ⟨none, angle, now⟩ =
        Response.status 400 "No file uploaded.") ∧
      ∀ file : UploadedFile Page,
        rotateHandler getRotation setRotation ⟨some file, none, now⟩ =
          Response.status 400 "No rotation angle provided." ∧
        rotateHandler getRotation setRotation ⟨some file, some "", now⟩ =
          Response.status 400 "No rotation angle provided.") ∧
    (∀ (decorate : String → List Page → Option (List Page)) (encryptionThrows : Bool),
      (∀ password, protectHandler decorate encryptionThrows ⟨none, password, now⟩ =
        Response.status 400 "No file uploaded.") ∧
      ∀ file : UploadedFile Page,
        protectHandler decorate encryptionThrows ⟨some file, none, now⟩ =
          Response.status 400 "No password provided." ∧
        protectHandler decorate encryptionThrows ⟨some file, some "", now⟩ =
          Response.status 400 "No password provided.") ∧
    ((∀ password, unlockHandler (⟨none, password, now⟩ : UnlockRequest Page) =
        Response.status 400 "No file uploaded.") ∧
      ∀ (file : LockedFile Page) (password : Option String) (msg : String),
        unlockHandler ⟨some file, password, now⟩ ≠ Response.status 400 msg) ∧
    (∀ stamp : String → List Page → Option (List Page),
      (∀ text, watermarkHandler stamp ⟨none, text, now⟩ =
        Response.status 400 "No file uploaded.") ∧
      ∀ file : UploadedFile Page,
        watermarkHandler stamp ⟨some file, none, now⟩ =
          Response.status 400 "No watermark text provided." ∧
        watermarkHandler stamp ⟨some file, some "", now⟩ =
          Response.status 400 "No watermark text provided.") ∧
    compressHandler (⟨none, now⟩ : CompressRequest Page) =
      Response.status 400 "No file uploaded." ∧
    ((∀ outputFormat, convertOfficeHandler (⟨none, outputFormat, now⟩ : ConvertRequest Content) =
        ConvertResponse.status 400 "No file uploaded.") ∧
      ∀ file : OfficeFile Content,
        convertOfficeHandler ⟨some file, none, now⟩ =
          ConvertResponse.status 400 "No output format specified." ∧
        convertOfficeHandler ⟨some file, some "", now⟩ =
          ConvertResponse.status 400 "No output format specified.") := by
  refine ⟨⟨rfl, rfl⟩, ⟨fun _ => rfl, fun _ => ⟨rfl, rfl⟩⟩,
    fun _ _ => ⟨fun _ => rfl, fun _ => ⟨rfl, rfl⟩⟩,
    fun _ _ => ⟨fun _ => rfl, fun _ => ⟨rfl, rfl⟩⟩, ⟨fun _ => rfl, ?_⟩,
    fun _ => ⟨fun _ => rfl, fun _ => ⟨rfl, rfl⟩⟩, rfl,
    ⟨fun _ => rfl, fun _ => ⟨rfl, rfl⟩⟩⟩
  intro file password msg
  unfold unlockHandler
  simp only
  split <;> simp

end PdfUtility
